import Mathlib

/-!
Verification of the distributed rollout-execution engine of rlgraph/yarl
(`yarl/execution/ray/ray_executor.py` and
`rlgraph/execution/ray/sync_batch_executor.py`), as a shallow embedding.

Machine-level conventions: Python ints are `Nat` (all counters here are
non-negative and never overflow-relevant), Python floats that carry exact
test values are `ℚ`, fallible Python operations (tuple unpacking, float
division) return `Option`, the two executor loops are modelled as
fuel-indexed recursions returning `Option` (with `none` meaning the fuel
ran out, i.e. the loop has not terminated within that many passes).
-/

namespace RLGraph

/-! ### The `_execute_step` return value and its consumption (C1)

`SyncBatchExecutor._execute_step` ends with `return env_steps, update_steps, 0, 0`
(a 4-tuple); `RayExecutor.execute_workload` consumes the step primitive via
`worker_steps_executed, update_steps = self._execute_step()` (a 2-name unpack).
We model a Python tuple of naturals as a `List Nat`. -/

/-- The value built by `return env_steps, update_steps, 0, 0` in
`SyncBatchExecutor._execute_step` (sync_batch_executor.py line 129). -/
def syncExecuteStepResult (env_steps update_steps : Nat) : List Nat :=
  [env_steps, update_steps, 0, 0]

/-- Python sequence unpacking `a, b = xs`: succeeds exactly when the iterable
has exactly two elements; otherwise Python raises `ValueError` (modelled as
`none`). -/
def pyUnpack2 {α : Type} (xs : List α) : Option (α × α) :=
  match xs with
  | [a, b] => some (a, b)
  | _ => none

/-! ### The `execute_workload` control loop (C2, C10)

`RayExecutor.execute_workload` (ray_executor.py lines 142-159) runs

    while timesteps_executed < num_timesteps:
        iteration_step = 0
        iteration_updates = 0
        while iteration_step < report_interval:
            worker_steps_executed, update_steps = self._execute_step()
            iteration_step += worker_steps_executed
            iteration_updates += update_steps
        timesteps_executed += iteration_step
        iteration_time_steps.append(iteration_step)
        iteration_update_steps.append(iteration_updates)

The step primitive is abstracted as a function from the call index to the
pair `(worker_steps_executed, update_steps)` it yields to the caller. -/

/-- Abstract step primitive: call number ↦ (worker_steps_executed, update_steps). -/
abbrev StepFn := Nat → Nat × Nat

/-- The inner reporting loop of `execute_workload`: from call index `k`,
accumulators `iteration_step` and `iteration_updates`, run
`while iteration_step < report_interval` for at most `fuel` passes.
Returns `(next call index, iteration_step, iteration_updates)`. -/
def innerLoop (stepFn : StepFn) (report_interval : Nat) :
    Nat → Nat → Nat → Nat → Option (Nat × Nat × Nat)
  | fuel, k, iteration_step, iteration_updates =>
    if iteration_step < report_interval then
      match fuel with
      | 0 => none
      | fuel + 1 =>
          innerLoop stepFn report_interval fuel (k + 1)
            (iteration_step + (stepFn k).1)
            (iteration_updates + (stepFn k).2)
    else
      some (k, iteration_step, iteration_updates)

/-- Observable outcome of one `execute_workload` run: the final
`timesteps_executed` counter, how many times the step primitive was called,
and the per-iteration `iteration_time_steps` / `iteration_update_steps`
accumulator lists, in append order. -/
structure WorkloadRun where
  timestepsExecuted : Nat
  stepCalls : Nat
  iterationTimeSteps : List Nat
  iterationUpdateSteps : List Nat
deriving DecidableEq, Repr

/-- The outer loop of `execute_workload`: `while timesteps_executed < num_timesteps`,
each pass running the inner reporting loop from fresh zero accumulators and
appending one entry to each per-iteration list. -/
def outerLoop (stepFn : StepFn) (num_timesteps report_interval fuelInner : Nat) :
    Nat → Nat → Nat → List Nat → List Nat → Option WorkloadRun
  | fuel, k, timesteps_executed, iteration_time_steps, iteration_update_steps =>
    if timesteps_executed < num_timesteps then
      match fuel with
      | 0 => none
      | fuel + 1 =>
          match innerLoop stepFn report_interval fuelInner k 0 0 with
          | none => none
          | some (k2, iteration_step, iteration_updates) =>
              outerLoop stepFn num_timesteps report_interval fuelInner fuel k2
                (timesteps_executed + iteration_step)
                (iteration_time_steps ++ [iteration_step])
                (iteration_update_steps ++ [iteration_updates])
    else
      some ⟨timesteps_executed, k, iteration_time_steps, iteration_update_steps⟩

/-- `execute_workload` core loop, started from zeroed counters and empty
per-iteration lists, with `fuelOuter` passes allowed for the outer loop and
`fuelInner` for each run of the inner loop. -/
def execute_workload (stepFn : StepFn) (num_timesteps report_interval fuelOuter fuelInner : Nat) :
    Option WorkloadRun :=
  outerLoop stepFn num_timesteps report_interval fuelInner fuelOuter 0 0 [] []

/-! ### Loop lemmas shared by the workload claims -/

/-- Whenever the outer loop returns, the final `timesteps_executed` is at least
`num_timesteps`, equals the sum of the recorded per-iteration step counts, and
every strict prefix of the iteration list sums to less than `num_timesteps`
(the loop exited at the first iteration that reached the target). -/
theorem outerLoop_sound (stepFn : StepFn) (nt ri fi : Nat) :
    ∀ fuel k t ls us r,
      outerLoop stepFn nt ri fi fuel k t ls us = some r →
      t = ls.sum →
      (∀ j, j < ls.length → (ls.take j).sum < nt) →
      nt ≤ r.timestepsExecuted ∧
        r.timestepsExecuted = r.iterationTimeSteps.sum ∧
        ∀ j, j < r.iterationTimeSteps.length → (r.iterationTimeSteps.take j).sum < nt := by
  intro fuel
  induction fuel with
  | zero =>
    intro k t ls us r h ht hpre
    rw [outerLoop] at h
    by_cases hg : t < nt
    · rw [if_pos hg] at h
      exact absurd h (by simp)
    · rw [if_neg hg] at h
      obtain rfl : WorkloadRun.mk t k ls us = r := by injection h
      exact ⟨Nat.le_of_not_lt hg, ht, hpre⟩
  | succ f ih =>
    intro k t ls us r h ht hpre
    rw [outerLoop] at h
    by_cases hg : t < nt
    · rw [if_pos hg] at h
      cases hinner : innerLoop stepFn ri fi k 0 0 with
      | none => rw [hinner] at h; exact absurd h (by simp)
      | some p =>
        obtain ⟨k2, istep, iupd⟩ := p
        rw [hinner] at h
        refine ih k2 (t + istep) (ls ++ [istep]) (us ++ [iupd]) r h ?_ ?_
        · rw [ht]; simp
        · intro j hj
          rw [List.length_append, List.length_singleton] at hj
          have hj' : j ≤ ls.length := Nat.lt_succ_iff.mp hj
          rw [List.take_append_of_le_length hj']
          rcases Nat.lt_or_eq_of_le hj' with hlt | heq
          · exact hpre j hlt
          · rw [heq, List.take_length]
            exact ht ▸ hg
    · rw [if_neg hg] at h
      obtain rfl : WorkloadRun.mk t k ls us = r := by injection h
      exact ⟨Nat.le_of_not_lt hg, ht, hpre⟩

/-- When the inner reporting loop exits, its accumulated `iteration_step` has
reached `report_interval` (the `while iteration_step < report_interval` guard
is false at exit). -/
theorem innerLoop_result_ge (stepFn : StepFn) (ri : Nat) :
    ∀ fuel k s u k2 istep iupd,
      innerLoop stepFn ri fuel k s u = some (k2, istep, iupd) → ri ≤ istep := by
  intro fuel
  induction fuel with
  | zero =>
    intro k s u k2 istep iupd h
    rw [innerLoop] at h
    by_cases hg : s < ri
    · rw [if_pos hg] at h; exact absurd h (by simp)
    · rw [if_neg hg] at h
      obtain ⟨rfl, rfl, rfl⟩ : k = k2 ∧ s = istep ∧ u = iupd := by
        simpa [Prod.ext_iff] using h
      exact Nat.le_of_not_lt hg
  | succ f ih =>
    intro k s u k2 istep iupd h
    rw [innerLoop] at h
    by_cases hg : s < ri
    · rw [if_pos hg] at h
      exact ih _ _ _ _ _ _ h
    · rw [if_neg hg] at h
      obtain ⟨rfl, rfl, rfl⟩ : k = k2 ∧ s = istep ∧ u = iupd := by
        simpa [Prod.ext_iff] using h
      exact Nat.le_of_not_lt hg

/-- If every step-primitive call yields at least one environment step, the
inner reporting loop terminates once given `report_interval` worth of fuel. -/
theorem innerLoop_pos_some (stepFn : StepFn) (ri : Nat) (hpos : ∀ m, 1 ≤ (stepFn m).1) :
    ∀ fuel k s u, ri ≤ s + fuel → ∃ out, innerLoop stepFn ri fuel k s u = some out := by
  intro fuel
  induction fuel with
  | zero =>
    intro k s u hf
    rw [innerLoop]
    rw [Nat.add_zero] at hf
    rw [if_neg (Nat.not_lt_of_le hf)]
    exact ⟨_, rfl⟩
  | succ f ih =>
    intro k s u hf
    rw [innerLoop]
    by_cases hg : s < ri
    · rw [if_pos hg]
      refine ih (k + 1) (s + (stepFn k).1) (u + (stepFn k).2) ?_
      have h1 : s + 1 + f ≤ s + (stepFn k).1 + f :=
        Nat.add_le_add_right (Nat.add_le_add_left (hpos k) s) f
      calc ri ≤ s + (f + 1) := hf
        _ = s + 1 + f := by omega
        _ ≤ s + (stepFn k).1 + f := h1
    · rw [if_neg hg]
      exact ⟨_, rfl⟩

/-- If every step-primitive call yields at least one environment step and the
report interval is positive, the whole workload loop terminates once given
`num_timesteps` worth of outer fuel. -/
theorem outerLoop_pos_some (stepFn : StepFn) (nt ri : Nat)
    (hpos : ∀ m, 1 ≤ (stepFn m).1) (hri : 1 ≤ ri) :
    ∀ fuel k t ls us, nt ≤ t + fuel →
      ∃ r, outerLoop stepFn nt ri ri fuel k t ls us = some r := by
  intro fuel
  induction fuel with
  | zero =>
    intro k t ls us hf
    rw [outerLoop]
    rw [Nat.add_zero] at hf
    rw [if_neg (Nat.not_lt_of_le hf)]
    exact ⟨_, rfl⟩
  | succ f ih =>
    intro k t ls us hf
    rw [outerLoop]
    by_cases hg : t < nt
    · rw [if_pos hg]
      obtain ⟨⟨k2, istep, iupd⟩, hinner⟩ :=
        innerLoop_pos_some stepFn ri hpos ri k 0 0 (by omega)
      rw [hinner]
      have histep : ri ≤ istep := innerLoop_result_ge stepFn ri ri k 0 0 k2 istep iupd hinner
      exact ih k2 (t + istep) (ls ++ [istep]) (us ++ [iupd]) (by omega)
    · rw [if_neg hg]
      exact ⟨_, rfl⟩

/-- If every step-primitive call yields zero environment steps, the inner
reporting loop never exits, whatever fuel it is given. -/
theorem innerLoop_zero_none (ri : Nat) (hri : 1 ≤ ri) :
    ∀ fuel k u, innerLoop (fun _ => (0, 0)) ri fuel k 0 u = none := by
  intro fuel
  induction fuel with
  | zero =>
    intro k u
    rw [innerLoop, if_pos (show 0 < ri from hri)]
  | succ f ih =>
    intro k u
    rw [innerLoop, if_pos (show 0 < ri from hri)]
    simpa using ih (k + 1) (u + 0)

/-! ### Iteration throughput arithmetic (C3)

`execute_workload` (ray_executor.py lines 153-178) records
`iteration_end = time.monotonic() - iteration_start` per iteration, floors
only the run total via `total_time = (time.monotonic() - start) or 1e-10`,
and finally computes `iteration_time_steps[i] / it_time` for each iteration.
Float values are modelled as `ℚ`. -/

/-- Python float division: raises `ZeroDivisionError` on a zero divisor
(modelled as `none`). -/
def pyDiv (a b : ℚ) : Option ℚ :=
  if b = 0 then none else some (a / b)

/-- Python `x or y` applied to floats: yields `y` when `x == 0.0` (falsy),
otherwise `x`. -/
def pyOrFloat (x y : ℚ) : ℚ :=
  if x = 0 then y else x

/-- The per-iteration sampling-throughput computation
`iteration_time_steps[i] / it_time` (ray_executor.py line 177), applied to an
iteration's step count and its raw, unfloored elapsed time. -/
def iterationThroughput (steps : Nat) (it_time : ℚ) : Option ℚ :=
  pyDiv (steps : ℚ) it_time

/-- The floored total duration `total_time = (time.monotonic() - start) or 1e-10`
(ray_executor.py line 168). -/
def totalTimeFloored (elapsed : ℚ) : ℚ :=
  pyOrFloat elapsed (1 / 10 ^ 10)

/-! ### Worker statistics aggregation (C4)

`RayExecutor.get_aggregate_worker_results` (ray_executor.py lines 291-334)
collects one metrics dict per worker and reduces with `np.min`, `np.max`,
`np.mean` and running integer sums. -/

/-- The per-worker cumulative statistics snapshot consumed from
`get_workload_statistics`. -/
structure WorkerStats where
  min_episode_reward : ℚ
  max_episode_reward : ℚ
  mean_episode_reward : ℚ
  final_episode_reward : ℚ
  episodes_executed : Nat
  worker_steps : Nat
  mean_worker_ops_per_second : ℚ
  mean_worker_env_frames_per_second : ℚ
deriving DecidableEq, Repr

/-- `np.min` on a list of floats: the running minimum. (On an empty list
NumPy raises; the junk value 0 is never relied upon — every theorem below
assumes a non-empty worker list.) -/
def npMin : List ℚ → ℚ
  | [] => 0
  | x :: xs => xs.foldl min x

/-- `np.max` on a list of floats: the running maximum (junk 0 on empty). -/
def npMax : List ℚ → ℚ
  | [] => 0
  | x :: xs => xs.foldl max x

/-- `np.mean` on a list of floats: sum divided by length. -/
def npMean (xs : List ℚ) : ℚ :=
  xs.sum / (xs.length : ℚ)

/-- The aggregate statistics dict returned by `get_aggregate_worker_results`. -/
structure AggregateStats where
  min_reward : ℚ
  max_reward : ℚ
  mean_reward : ℚ
  mean_final_reward : ℚ
  episodes_executed : Nat
  steps_executed : Nat
  mean_worker_op_throughput : ℚ
  min_worker_op_throughput : ℚ
  max_worker_op_throughput : ℚ
  mean_worker_env_frame_throughput : ℚ
deriving DecidableEq, Repr

/-- `RayExecutor.get_aggregate_worker_results`: per-metric lists are built by
iterating the workers in order and appending, then reduced. -/
def get_aggregate_worker_results (ws : List WorkerStats) : AggregateStats :=
  ⟨npMin (ws.map (fun v => v.min_episode_reward)),
   npMax (ws.map (fun v => v.max_episode_reward)),
   npMean (ws.map (fun v => v.mean_episode_reward)),
   npMean (ws.map (fun v => v.final_episode_reward)),
   (ws.map (fun v => v.episodes_executed)).sum,
   (ws.map (fun v => v.worker_steps)).sum,
   npMean (ws.map (fun v => v.mean_worker_ops_per_second)),
   npMin (ws.map (fun v => v.mean_worker_ops_per_second)),
   npMax (ws.map (fun v => v.mean_worker_ops_per_second)),
   npMean (ws.map (fun v => v.mean_worker_env_frames_per_second))⟩

/-! ### Fold lemmas for `npMin` / `npMax` -/

theorem foldl_min_le_init {α : Type} [LinearOrder α] (xs : List α) :
    ∀ a : α, xs.foldl min a ≤ a := by
  induction xs with
  | nil => intro a; exact le_refl a
  | cons x xs ih =>
    intro a
    calc (x :: xs).foldl min a = xs.foldl min (min a x) := rfl
      _ ≤ min a x := ih (min a x)
      _ ≤ a := min_le_left a x

theorem foldl_min_le_mem {α : Type} [LinearOrder α] (xs : List α) :
    ∀ a x, x ∈ xs → xs.foldl min a ≤ x := by
  induction xs with
  | nil => intro a x hx; exact absurd hx (List.not_mem_nil x)
  | cons y ys ih =>
    intro a x hx
    rcases List.mem_cons.mp hx with rfl | hmem
    · calc (x :: ys).foldl min a = ys.foldl min (min a x) := rfl
        _ ≤ min a x := foldl_min_le_init ys (min a x)
        _ ≤ x := min_le_right a x
    · exact ih (min a y) x hmem

theorem foldl_min_mem {α : Type} [LinearOrder α] (xs : List α) :
    ∀ a, xs.foldl min a = a ∨ xs.foldl min a ∈ xs := by
  induction xs with
  | nil => intro a; exact Or.inl rfl
  | cons y ys ih =>
    intro a
    rcases ih (min a y) with h | h
    · rcases le_total a y with hay | hya
      · left
        show ys.foldl min (min a y) = a
        rw [h, min_eq_left hay]
      · right
        show ys.foldl min (min a y) ∈ y :: ys
        rw [h, min_eq_right hya]
        exact List.mem_cons_self y ys
    · right
      exact List.mem_cons_of_mem y h

theorem foldl_max_init_le {α : Type} [LinearOrder α] (xs : List α) :
    ∀ a : α, a ≤ xs.foldl max a := by
  induction xs with
  | nil => intro a; exact le_refl a
  | cons x xs ih =>
    intro a
    calc a ≤ max a x := le_max_left a x
      _ ≤ xs.foldl max (max a x) := ih (max a x)
      _ = (x :: xs).foldl max a := rfl

theorem foldl_max_mem_le {α : Type} [LinearOrder α] (xs : List α) :
    ∀ a x, x ∈ xs → x ≤ xs.foldl max a := by
  induction xs with
  | nil => intro a x hx; exact absurd hx (List.not_mem_nil x)
  | cons y ys ih =>
    intro a x hx
    rcases List.mem_cons.mp hx with rfl | hmem
    · calc x ≤ max a x := le_max_right a x
        _ ≤ ys.foldl max (max a x) := foldl_max_init_le ys (max a x)
        _ = (x :: ys).foldl max a := rfl
    · exact ih (max a y) x hmem

theorem foldl_max_mem {α : Type} [LinearOrder α] (xs : List α) :
    ∀ a, xs.foldl max a = a ∨ xs.foldl max a ∈ xs := by
  induction xs with
  | nil => intro a; exact Or.inl rfl
  | cons y ys ih =>
    intro a
    rcases ih (max a y) with h | h
    · rcases le_total a y with hay | hya
      · right
        show ys.foldl max (max a y) ∈ y :: ys
        rw [h, max_eq_right hay]
        exact List.mem_cons_self y ys
      · left
        show ys.foldl max (max a y) = a
        rw [h, max_eq_left hya]
    · right
      exact List.mem_cons_of_mem y h

theorem npMin_le (xs : List ℚ) (x : ℚ) (hx : x ∈ xs) : npMin xs ≤ x := by
  cases xs with
  | nil => exact absurd hx (List.not_mem_nil x)
  | cons a t =>
    rcases List.mem_cons.mp hx with rfl | hmem
    · exact foldl_min_le_init t x
    · exact foldl_min_le_mem t a x hmem

theorem npMin_mem (xs : List ℚ) (h : xs ≠ []) : npMin xs ∈ xs := by
  cases xs with
  | nil => exact absurd rfl h
  | cons a t =>
    rcases foldl_min_mem t a with heq | hmem
    · rw [npMin, heq]; exact List.mem_cons_self a t
    · exact List.mem_cons_of_mem a hmem

theorem le_npMax (xs : List ℚ) (x : ℚ) (hx : x ∈ xs) : x ≤ npMax xs := by
  cases xs with
  | nil => exact absurd hx (List.not_mem_nil x)
  | cons a t =>
    rcases List.mem_cons.mp hx with rfl | hmem
    · exact foldl_max_init_le t x
    · exact foldl_max_mem_le t a x hmem

theorem npMax_mem (xs : List ℚ) (h : xs ≠ []) : npMax xs ∈ xs := by
  cases xs with
  | nil => exact absurd rfl h
  | cons a t =>
    rcases foldl_max_mem t a with heq | hmem
    · rw [npMax, heq]; exact List.mem_cons_self a t
    · exact List.mem_cons_of_mem a hmem

theorem npMean_mul_length (xs : List ℚ) (h : xs ≠ []) :
    npMean xs * (xs.length : ℚ) = xs.sum := by
  rw [npMean]
  have hpos : 0 < xs.length := List.length_pos.mpr h
  have hlen : (xs.length : ℚ) ≠ 0 := by
    exact_mod_cast Nat.pos_iff_ne_zero.mp hpos
  exact div_mul_cancel₀ xs.sum hlen

/-! ### Claim C1 -/

/-- C1 counterexample: the claim that execute_workload's consumption of the
step result succeeds is false — the two-name unpacking
`worker_steps_executed, update_steps = self._execute_step()` applied to the
4-tuple returned by `SyncBatchExecutor._execute_step` fails (Python raises
`ValueError: too many values to unpack`), here at the concrete step result
`(100, 0, 0, 0)`. -/
theorem claim_C1_counterexample :
    pyUnpack2 (syncExecuteStepResult 100 0) = none := rfl

/-- C1 (amended): `SyncBatchExecutor._execute_step` does return the 4-tuple
`(env_steps_this_call, update_steps_this_call, 0, 0)` whose trailing two
components are always 0, but this return arity is NOT compatible with the
caller in `RayExecutor.execute_workload`, whose control loop unpacks the step
result into exactly two names, so its consumption of the 4-tuple fails. -/
theorem claim_C1 (env_steps update_steps : Nat) :
    syncExecuteStepResult env_steps update_steps = [env_steps, update_steps, 0, 0] ∧
    (syncExecuteStepResult env_steps update_steps).length = 4 ∧
    pyUnpack2 (syncExecuteStepResult env_steps update_steps) = none :=
  ⟨rfl, rfl, rfl⟩

/-! ### Claim C2 -/

/-- The run that `execute_workload` produces in the deterministic 4-worker
scenario of C2: 1000 timesteps, 10 step-primitive calls, ten iterations of
100 environment steps and 0 update steps each. -/
def runC2 : WorkloadRun :=
  ⟨1000, 10, List.replicate 10 100, List.replicate 10 0⟩

/-- C2: with a deterministic step model returning 100 environment steps and 0
update steps per call, `execute_workload` with `num_timesteps = 1000` and
`report_interval = 100` performs exactly 10 step-primitive calls (one per
reporting iteration) and returns `timesteps_executed = 1000`; in general the
loop exits as soon as the accumulated environment steps reach or exceed
`num_timesteps`: the result's total is ≥ `num_timesteps`, it is the sum of
the per-iteration step counts, and every strict prefix of the iteration list
sums to less than `num_timesteps`. -/
theorem claim_C2 (stepFn : StepFn) (nt ri fo fi : Nat) (r : WorkloadRun) (j : Nat)
    (h : execute_workload stepFn nt ri fo fi = some r)
    (hj : j < r.iterationTimeSteps.length) :
    execute_workload (fun _ => (100, 0)) 1000 100 20 20 = some runC2 ∧
    nt ≤ r.timestepsExecuted ∧
    r.timestepsExecuted = r.iterationTimeSteps.sum ∧
    (r.iterationTimeSteps.take j).sum < nt := by
  have hs := outerLoop_sound stepFn nt ri fi fo 0 0 [] [] r h rfl
    (fun j hj => absurd hj (by simp))
  exact ⟨by decide, hs.1, hs.2.1, hs.2.2 j hj⟩

/-- C2 witness: the theorem applied to the deterministic scenario itself,
with `j = 3`. -/
theorem claim_C2_witness :
    execute_workload (fun _ => (100, 0)) 1000 100 20 20 = some runC2 ∧
    1000 ≤ runC2.timestepsExecuted ∧
    runC2.timestepsExecuted = runC2.iterationTimeSteps.sum ∧
    (runC2.iterationTimeSteps.take 3).sum < 1000 :=
  claim_C2 (fun _ => (100, 0)) 1000 100 20 20 runC2 3 (by decide) (by decide)

/-! ### Claim C10 -/

/-- C10: for positive `num_timesteps` and `report_interval`, `execute_workload`
terminates provided every step-primitive call returns a strictly positive
environment-step count (witnessed by fuel `num_timesteps` outer /
`report_interval` inner sufficing); conversely, if every call returns 0
environment steps, the inner reporting loop never exits, whatever fuel it is
given. -/
theorem claim_C10 (stepFn : StepFn) (nt ri : Nat) (_h1 : 1 ≤ nt) (h2 : 1 ≤ ri)
    (hpos : ∀ m, 1 ≤ (stepFn m).1) :
    (∃ r, execute_workload stepFn nt ri nt ri = some r) ∧
    ∀ fuel k u, innerLoop (fun _ => (0, 0)) ri fuel k 0 u = none := by
  refine ⟨?_, innerLoop_zero_none ri h2⟩
  exact outerLoop_pos_some stepFn nt ri hpos h2 nt 0 0 [] [] (by omega)

/-- C10 witness: the theorem applied at `num_timesteps = report_interval = 1`
with the constant step model returning one environment step per call. -/
theorem claim_C10_witness :
    innerLoop (fun _ => (0, 0)) 1 5 0 0 0 = none :=
  (claim_C10 (fun _ => (1, 0)) 1 1 (Nat.le_refl 1) (Nat.le_refl 1)
    (fun _ => Nat.le_refl 1)).2 5 0 0

/-! ### Claim C3 -/

/-- C3 counterexample: the claim that a zero-elapsed iteration is floored to a
minimum positive epsilon so the per-iteration throughput never divides by
zero is false — at an iteration with 100 steps and measured elapsed time 0,
the computation `iteration_time_steps[i] / it_time` divides by zero (Python
raises `ZeroDivisionError`): the per-iteration duration is used raw. -/
theorem claim_C3_counterexample :
    iterationThroughput 100 0 = none := rfl

/-- C3 (amended): each iteration's reported sampling throughput equals
steps-in-iteration divided by wall-seconds-in-iteration whenever the measured
elapsed time is nonzero, but per-iteration durations are NOT floored — an
iteration with zero measured elapsed time makes the throughput computation
divide by zero. Only the run's TOTAL duration is floored, via
`total_time = elapsed or 1e-10`, which maps a zero elapsed total to `1e-10`
and leaves any nonzero elapsed total unchanged. -/
theorem claim_C3 (steps : Nat) (t u : ℚ) (ht : t ≠ 0) (hu : u ≠ 0) :
    iterationThroughput steps t = some ((steps : ℚ) / t) ∧
    iterationThroughput steps 0 = none ∧
    totalTimeFloored 0 = 1 / 10 ^ 10 ∧
    totalTimeFloored u = u := by
  refine ⟨?_, rfl, rfl, ?_⟩
  · rw [iterationThroughput, pyDiv, if_neg ht]
  · rw [totalTimeFloored, pyOrFloat, if_neg hu]

/-- C3 witness: the theorem applied at 100 steps, elapsed times 2 and 3. -/
theorem claim_C3_witness :
    iterationThroughput 100 2 = some ((100 : ℚ) / 2) ∧
    iterationThroughput 100 0 = none ∧
    totalTimeFloored 0 = 1 / 10 ^ 10 ∧
    totalTimeFloored 3 = 3 :=
  claim_C3 100 2 3 (by norm_num) (by norm_num)

/-! ### Claim C4 -/

/-- First example worker for the three-worker aggregation scenario
(mean episode reward 1). -/
def w4a : WorkerStats := ⟨0, 5, 1, 1, 2, 10, 1, 1⟩

/-- Second example worker (mean episode reward 2). -/
def w4b : WorkerStats := ⟨1, 6, 2, 2, 3, 20, 2, 2⟩

/-- Third example worker (mean episode reward 3). -/
def w4c : WorkerStats := ⟨-1, 4, 3, 3, 4, 30, 3, 3⟩

/-- The three-worker snapshot list with mean rewards {1, 2, 3}. -/
def aggExample : List WorkerStats := [w4a, w4b, w4c]

/-- C4: `get_aggregate_worker_results` on a non-empty worker list reduces
min_reward to the minimum of per-worker minima (a lower bound attained by
some worker), max_reward to the maximum of per-worker maxima (an upper bound
attained by some worker), mean_reward and mean_final_reward to the unweighted
arithmetic means of the per-worker mean and final episode rewards (times the
worker count they give back the plain, non-episode-weighted sums), and
episodes_executed / steps_executed to the sums across workers; in particular,
for three workers with mean rewards {1, 2, 3}, mean_reward = 2. -/
theorem claim_C4 (ws : List WorkerStats) (w : WorkerStats) (hw : w ∈ ws) (hne : ws ≠ []) :
    (get_aggregate_worker_results aggExample).mean_reward = 2 ∧
    (get_aggregate_worker_results ws).min_reward ≤ w.min_episode_reward ∧
    (get_aggregate_worker_results ws).min_reward ∈
      ws.map (fun v => v.min_episode_reward) ∧
    w.max_episode_reward ≤ (get_aggregate_worker_results ws).max_reward ∧
    (get_aggregate_worker_results ws).max_reward ∈
      ws.map (fun v => v.max_episode_reward) ∧
    (get_aggregate_worker_results ws).mean_reward * (ws.length : ℚ) =
      (ws.map (fun v => v.mean_episode_reward)).sum ∧
    (get_aggregate_worker_results ws).mean_final_reward * (ws.length : ℚ) =
      (ws.map (fun v => v.final_episode_reward)).sum ∧
    (get_aggregate_worker_results ws).episodes_executed =
      (ws.map (fun v => v.episodes_executed)).sum ∧
    (get_aggregate_worker_results ws).steps_executed =
      (ws.map (fun v => v.worker_steps)).sum := by
  have hmapne : ∀ f : WorkerStats → ℚ, ws.map f ≠ [] := by
    intro f hcon
    exact hne (List.map_eq_nil_iff.mp hcon)
  have hlen : ∀ f : WorkerStats → ℚ, (ws.map f).length = ws.length :=
    fun f => List.length_map ws f
  refine ⟨?_, ?_, ?_, ?_, ?_, ?_, ?_, rfl, rfl⟩
  · norm_num [get_aggregate_worker_results, npMean, aggExample, w4a, w4b, w4c]
  · exact npMin_le _ _ (List.mem_map_of_mem (fun v => v.min_episode_reward) hw)
  · exact npMin_mem _ (hmapne _)
  · exact le_npMax _ _ (List.mem_map_of_mem (fun v => v.max_episode_reward) hw)
  · exact npMax_mem _ (hmapne _)
  · rw [get_aggregate_worker_results]
    rw [show (ws.length : ℚ) = ((ws.map (fun v => v.mean_episode_reward)).length : ℚ) by
      rw [hlen]]
    exact npMean_mul_length _ (hmapne _)
  · rw [get_aggregate_worker_results]
    rw [show (ws.length : ℚ) = ((ws.map (fun v => v.final_episode_reward)).length : ℚ) by
      rw [hlen]]
    exact npMean_mul_length _ (hmapne _)

/-- C4 witness: the theorem applied to the three-worker example, picking the
second worker as the bound witness. -/
theorem claim_C4_witness :
    (get_aggregate_worker_results aggExample).mean_reward = 2 ∧
    (get_aggregate_worker_results aggExample).min_reward ≤ w4b.min_episode_reward ∧
    (get_aggregate_worker_results aggExample).min_reward ∈
      aggExample.map (fun v => v.min_episode_reward) ∧
    w4b.max_episode_reward ≤ (get_aggregate_worker_results aggExample).max_reward ∧
    (get_aggregate_worker_results aggExample).max_reward ∈
      aggExample.map (fun v => v.max_episode_reward) ∧
    (get_aggregate_worker_results aggExample).mean_reward * (aggExample.length : ℚ) =
      (aggExample.map (fun v => v.mean_episode_reward)).sum ∧
    (get_aggregate_worker_results aggExample).mean_final_reward * (aggExample.length : ℚ) =
      (aggExample.map (fun v => v.final_episode_reward)).sum ∧
    (get_aggregate_worker_results aggExample).episodes_executed =
      (aggExample.map (fun v => v.episodes_executed)).sum ∧
    (get_aggregate_worker_results aggExample).steps_executed =
      (aggExample.map (fun v => v.worker_steps)).sum :=
  claim_C4 aggExample w4b (by decide) (by decide)

/-! ### The synchronous-batch step over the task pool (C5) -/

/-- Modelled from the spec: `RayTaskPool`
(`rlgraph.execution.ray.ray_util`, which is not among the sources) — §4.2:
the pool tracks the single outstanding sampling task of each worker,
`get_completed` yields exactly the currently finished tasks and removes them
from the pool, and `add_task` registers a fresh outstanding task for a
worker. The pool state is the list of workers (identified by `Nat` ids) that
currently have one outstanding task; which of those tasks are finished at the
moment of the call is abstracted as a predicate `done`. -/
abbrev RayTaskPool := List Nat

/-- Modelled from the spec: one `get_completed` call — the currently finished
tasks (yielded, in pool order, and removed from the pool) paired with the
residual pool of still-pending tasks. -/
def get_completed (done : Nat → Bool) (pool : RayTaskPool) : List Nat × RayTaskPool :=
  (pool.filter done, pool.filter (fun w => ! done w))

/-- Result of one `SyncBatchExecutor._execute_step` call: the four returned
components and the task-pool state after the call. -/
structure SyncStepOutcome where
  env_steps : Nat
  update_steps : Nat
  reserved1 : Nat
  reserved2 : Nat
  pool : RayTaskPool
deriving DecidableEq, Repr

/-- `SyncBatchExecutor._execute_step` (sync_batch_executor.py lines 101-129):
fetch all completed sampling tasks via `get_completed`, add each completed
task's reported sample count (`count w`) to the environment-step counter, and
re-submit one fresh sampling task for that same worker via `add_task`;
`update_steps` stays 0, and the trailing reserved components are 0. -/
def sync_execute_step (done : Nat → Bool) (count : Nat → Nat) (pool : RayTaskPool) :
    SyncStepOutcome :=
  ⟨((get_completed done pool).1.map count).sum, 0, 0, 0,
   (get_completed done pool).2 ++ (get_completed done pool).1⟩

/-- C5: one synchronous-batch `_execute_step` call preserves the
at-most-one-outstanding-task-per-worker invariant (`Nodup` of the pool): the
new pool is a permutation of the old (exactly one fresh task re-submitted per
completed worker, no task for any other worker, and nodup is preserved), the
returned env_steps is the sum of the completed tasks' reported sample counts,
and update_steps is 0. -/
theorem claim_C5 (done : Nat → Bool) (count : Nat → Nat) (pool : RayTaskPool)
    (hinv : pool.Nodup) :
    (sync_execute_step done count pool).pool =
      pool.filter (fun w => ! done w) ++ pool.filter done ∧
    List.Perm (sync_execute_step done count pool).pool pool ∧
    (sync_execute_step done count pool).pool.Nodup ∧
    (sync_execute_step done count pool).env_steps =
      ((pool.filter done).map count).sum ∧
    (sync_execute_step done count pool).update_steps = 0 := by
  have hperm : List.Perm (sync_execute_step done count pool).pool pool := by
    show List.Perm (pool.filter (fun w => ! done w) ++ pool.filter done) pool
    exact (List.perm_append_comm).trans (List.filter_append_perm done pool)
  exact ⟨rfl, hperm, hperm.nodup_iff.mpr hinv, rfl, rfl⟩

/-- C5 witness: the theorem applied to the pool {0, 1, 2} with the even
workers' tasks finished and sample counts `w + 10`. -/
theorem claim_C5_witness :
    (sync_execute_step (fun w => w % 2 == 0) (fun w => w + 10) [0, 1, 2]).pool =
      ([0, 1, 2].filter (fun w => ! (w % 2 == 0))) ++ ([0, 1, 2].filter (fun w => w % 2 == 0)) ∧
    List.Perm (sync_execute_step (fun w => w % 2 == 0) (fun w => w + 10) [0, 1, 2]).pool
      [0, 1, 2] ∧
    (sync_execute_step (fun w => w % 2 == 0) (fun w => w + 10) [0, 1, 2]).pool.Nodup ∧
    (sync_execute_step (fun w => w % 2 == 0) (fun w => w + 10) [0, 1, 2]).env_steps =
      (([0, 1, 2].filter (fun w => w % 2 == 0)).map (fun w => w + 10)).sum ∧
    (sync_execute_step (fun w => w % 2 == 0) (fun w => w + 10) [0, 1, 2]).update_steps = 0 :=
  claim_C5 (fun w => w % 2 == 0) (fun w => w + 10) [0, 1, 2] (by decide)

/-! ### Worker creation (C6) -/

/-- An agent configuration: a finite string-keyed dict with opaque string
payloads. -/
structure AgentConfig where
  entries : List (String × String)
deriving DecidableEq, Repr

/-- `copy.deepcopy` applied to an agent config: builds a structurally equal
fresh copy. In the value semantics of this embedding the copy is the same
value; per-worker copying is recorded by each worker holding its own
`deepcopy` image of the caller's config rather than the caller's object. -/
def deepcopy (c : AgentConfig) : AgentConfig := c

/-- A remote worker actor handle: its creation index and the constructor
argument it received. -/
structure RayWorker where
  actor_index : Nat
  config : AgentConfig
deriving DecidableEq, Repr

/-- `RayExecutor.create_remote_workers` (ray_executor.py lines 80-97): for
`i in range(num_actors)`, construct a worker actor from a deep copy of
`agent_config`, record it in the identity-to-label map under the label
`"worker_{i}"`, and append it to the result list. Returns the worker list
and the `worker_ids` entries added, in order. -/
def create_remote_workers (num_actors : Nat) (agent_config : AgentConfig) :
    List RayWorker × List (RayWorker × String) :=
  let workers := (List.range num_actors).map
    (fun i => { actor_index := i, config := deepcopy agent_config : RayWorker })
  (workers, workers.map (fun w => (w, "worker_" ++ toString w.actor_index)))

/-- C6: `create_remote_workers n cfg` returns exactly `n` pairwise-distinct
workers; the i-th worker (0-based) carries its own deep copy of the config
and is recorded in the identity-to-label map under the stable label
`"worker_{i}"`. -/
theorem claim_C6 (n : Nat) (cfg : AgentConfig) (i : Nat) (hi : i < n) :
    (create_remote_workers n cfg).1.length = n ∧
    (create_remote_workers n cfg).1[i]? =
      some { actor_index := i, config := deepcopy cfg } ∧
    (create_remote_workers n cfg).2[i]? =
      some ({ actor_index := i, config := deepcopy cfg }, "worker_" ++ toString i) ∧
    (create_remote_workers n cfg).1.Nodup := by
  have hinj : Function.Injective
      (fun i : Nat => { actor_index := i, config := deepcopy cfg : RayWorker }) := by
    intro a b hab
    simpa using congrArg RayWorker.actor_index hab
  refine ⟨by simp [create_remote_workers], ?_, ?_, ?_⟩
  · simp [create_remote_workers, List.getElem?_map, List.getElem?_range, hi]
  · simp [create_remote_workers, List.getElem?_map, List.getElem?_range, hi]
  · simp only [create_remote_workers]
    exact ((List.nodup_range n).map hinj)

/-- C6 witness: the theorem applied with two workers at index 1. -/
theorem claim_C6_witness :
    (create_remote_workers 2 (AgentConfig.mk [("type", "dqn")])).1.length = 2 ∧
    (create_remote_workers 2 (AgentConfig.mk [("type", "dqn")])).1[1]? =
      some { actor_index := 1, config := deepcopy (AgentConfig.mk [("type", "dqn")]) } ∧
    (create_remote_workers 2 (AgentConfig.mk [("type", "dqn")])).2[1]? =
      some ({ actor_index := 1, config := deepcopy (AgentConfig.mk [("type", "dqn")]) },
        "worker_" ++ toString 1) ∧
    (create_remote_workers 2 (AgentConfig.mk [("type", "dqn")])).1.Nodup :=
  claim_C6 2 (AgentConfig.mk [("type", "dqn")]) 1 (by decide)

/-! ### Cluster initialization (C7) -/

/-- A value in a cluster-spec dict. -/
inductive SpecVal where
  | str (s : String)
  | num (n : Nat)
deriving DecidableEq, Repr

/-- A cluster spec: a string-keyed dict. -/
abbrev ClusterSpec := List (String × SpecVal)

/-- Python `key in dict`. -/
def specContains (spec : ClusterSpec) (k : String) : Bool :=
  spec.any (fun kv => kv.1 == k)

/-- Python `dict.get(key, None)`. -/
def specGet (spec : ClusterSpec) (k : String) : Option SpecVal :=
  (spec.find? (fun kv => kv.1 == k)).map (fun kv => kv.2)

/-- The keyword arguments `RayExecutor.ray_init` passes to `ray.init`. -/
structure RayInitArgs where
  redis_address : Option SpecVal
  num_cpus : Option SpecVal
  num_gpus : Option SpecVal
deriving DecidableEq, Repr

/-- `RayExecutor.ray_init` (ray_executor.py lines 63-78): emits the
local-coordinator warning iff `'redis_host' not in self.cluster_spec` — note
the key! — then calls `ray.init` with the spec's `redis_address`, `num_cpus`
and `num_gpus` values. Returns (warning emitted?, arguments passed). -/
def ray_init (spec : ClusterSpec) : Bool × RayInitArgs :=
  (! specContains spec "redis_host",
   ⟨specGet spec "redis_address", specGet spec "num_cpus", specGet spec "num_gpus"⟩)

/-- The failing input for C7: a cluster spec that does provide
`redis_address` (and, like any spec the rest of the code ever reads, no
`redis_host` key). -/
def specWithAddress : ClusterSpec :=
  [("redis_address", SpecVal.str "192.168.0.1:6379"), ("num_cpus", SpecVal.num 4)]

/-- C7 (code bug): on a spec that contains `redis_address`, `ray_init` still
emits the "No redis address provided" warning, because the guard tests the
key `redis_host`, which nothing else in the class ever writes or reads; the
presence of `redis_address` therefore does not suppress the warning,
contradicting the warning's own message text. The values passed on to
`ray.init` are, as the claim says, read from `redis_address`, `num_cpus` and
`num_gpus`. -/
theorem claim_C7 :
    specContains specWithAddress "redis_address" = true ∧
    (ray_init specWithAddress).1 = true ∧
    (ray_init specWithAddress).2 =
      ⟨some (SpecVal.str "192.168.0.1:6379"), some (SpecVal.num 4), none⟩ ∧
    ∀ spec : ClusterSpec, (ray_init spec).1 = ! specContains spec "redis_host" :=
  ⟨by decide, by decide, by decide, fun _ => rfl⟩

/-! ### Worker constructor probing (C8) -/

/-- A Python value returned by the remote `get_constructor_success` probe.
`assert result is True` passes only on the `True` singleton. -/
inductive ProbeResult where
  | pyTrue
  | pyFalse
  | otherVal (s : String)
deriving DecidableEq, Repr

/-- An observable action the executor performs against a worker. -/
inductive WorkerAction where
  | probeConstructor (w : Nat)
  | submitSampleTask (w : Nat)
deriving DecidableEq, Repr

/-- `SyncBatchExecutor.test_worker_init` (sync_batch_executor.py lines
90-99): probe each registered worker, in registration order, with
`get_constructor_success`; `assert result is True` aborts with
`AssertionError` (modelled as `Except.error` carrying the offending worker)
at the first worker whose probe result is not `True`. No sampling task is
submitted anywhere in the method. Returns the action trace and the outcome. -/
def test_worker_init (probe : Nat → ProbeResult) :
    List Nat → List WorkerAction × Except Nat Unit
  | [] => ([], Except.ok ())
  | w :: ws =>
    if probe w = ProbeResult.pyTrue then
      (WorkerAction.probeConstructor w :: (test_worker_init probe ws).1,
       (test_worker_init probe ws).2)
    else
      ([WorkerAction.probeConstructor w], Except.error w)

/-- C8: `test_worker_init` never submits a sampling task to any worker; it
completes without error exactly when every worker's probe returns `True`;
and when it raises, the offending worker is the first one in registration
order whose probe is not `True`. -/
theorem claim_C8 (probe : Nat → ProbeResult) (ws : List Nat) :
    (∀ a ∈ (test_worker_init probe ws).1, ∀ w, a ≠ WorkerAction.submitSampleTask w) ∧
    ((test_worker_init probe ws).2 = Except.ok () ↔
      ∀ w ∈ ws, probe w = ProbeResult.pyTrue) ∧
    ∀ w, (test_worker_init probe ws).2 = Except.error w →
      ∃ i : Nat, ws[i]? = some w ∧ probe w ≠ ProbeResult.pyTrue ∧
        ∀ (j : Nat) (v : Nat), j < i → ws[j]? = some v → probe v = ProbeResult.pyTrue := by
  induction ws with
  | nil =>
    refine ⟨?_, ?_, ?_⟩
    · intro a ha w
      exact absurd ha (List.not_mem_nil a)
    · simp [test_worker_init]
    · intro w hw
      simp [test_worker_init] at hw
  | cons w ws ih =>
    by_cases hw : probe w = ProbeResult.pyTrue
    · refine ⟨?_, ?_, ?_⟩
      · intro a ha v
        rw [test_worker_init, if_pos hw] at ha
        rcases List.mem_cons.mp ha with rfl | hmem
        · intro hcon; exact absurd hcon (by simp)
        · exact ih.1 a hmem v
      · rw [test_worker_init, if_pos hw]
        constructor
        · intro hok v hv
          rcases List.mem_cons.mp hv with rfl | hmem
          · exact hw
          · exact (ih.2.1.mp hok) v hmem
        · intro hall
          exact ih.2.1.mpr (fun v hv => hall v (List.mem_cons_of_mem w hv))
      · intro v hv
        rw [test_worker_init, if_pos hw] at hv
        obtain ⟨i, hi, hnv, hbefore⟩ := ih.2.2 v hv
        refine ⟨i + 1, by simpa using hi, hnv, ?_⟩
        intro j u hj hju
        cases j with
        | zero =>
          obtain rfl : w = u := by simpa using hju
          exact hw
        | succ j =>
          refine hbefore j u (Nat.lt_of_succ_lt_succ hj) ?_
          simpa using hju
    · refine ⟨?_, ?_, ?_⟩
      · intro a ha v
        rw [test_worker_init, if_neg hw] at ha
        obtain rfl : a = WorkerAction.probeConstructor w := by simpa using ha
        intro hcon; exact absurd hcon (by simp)
      · rw [test_worker_init, if_neg hw]
        constructor
        · intro hok
          exact absurd hok (by simp)
        · intro hall
          exact absurd (hall w (List.mem_cons_self w ws)) hw
      · intro v hv
        rw [test_worker_init, if_neg hw] at hv
        obtain rfl : w = v := by simpa using hv
        refine ⟨0, by simp, hw, ?_⟩
        intro j u hj
        exact absurd hj (Nat.not_lt_zero j)

/-- C8 witness: with every probe returning `True` the setup completes without
error — the theorem's success direction applied to three workers. -/
theorem claim_C8_witness :
    (test_worker_init (fun _ => ProbeResult.pyTrue) [0, 1, 2]).2 = Except.ok () :=
  (claim_C8 (fun _ => ProbeResult.pyTrue) [0, 1, 2]).2.1.mpr (by decide)

/-! ### Worker identifier queries (C9) -/

/-- A Python reference as stored in the executor's dicts: either a remote
actor handle (identified here by its creation index) or a string value. -/
inductive PyRef where
  | workerHandle (idx : Nat)
  | strVal (s : String)
deriving DecidableEq, Repr

/-- The `worker_ids` dict after registering `n` workers
(ray_executor.py lines 92-96): each actor handle, as key, maps to its stable
label `"worker_{i}"`, as value. -/
def worker_ids_after (n : Nat) : List (PyRef × String) :=
  (List.range n).map (fun i => (PyRef.workerHandle i, "worker_" ++ toString i))

/-- `RayExecutor.get_sample_worker_ids` (ray_executor.py lines 281-289):
`return list(self.worker_ids.keys())` — the keys of the identity-to-label
dict. -/
def get_sample_worker_ids (m : List (PyRef × String)) : List PyRef :=
  m.map (fun kv => kv.1)

/-- C9 (code bug): `get_sample_worker_ids` returns the keys of `worker_ids`,
which are the remote actor handles, not the label strings — with one
registered worker it returns the handle, which is not the string
`"worker_0"`; the labels are the dict's values. In general the returned list
is the list of handles, contradicting the docstring's "List of worker name
strings" and the claim. -/
theorem claim_C9 :
    get_sample_worker_ids (worker_ids_after 1) = [PyRef.workerHandle 0] ∧
    PyRef.workerHandle 0 ≠ PyRef.strVal "worker_0" ∧
    (worker_ids_after 1).map (fun kv => kv.2) = ["worker_0"] ∧
    ∀ n, get_sample_worker_ids (worker_ids_after n) =
      (List.range n).map PyRef.workerHandle := by
  refine ⟨by decide, by decide, by decide, ?_⟩
  intro n
  simp [get_sample_worker_ids, worker_ids_after]

end RLGraph
